import Mathlib

/-!
A shallow embedding of `GPU/gpu_power_monitor2.py` (the `GPUPowerMonitor`
class: startup validation, the per-tick sampling/attribution step, the
running energy ledger, and the final report), together with proofs of the
specification's testable properties.

Modelling conventions:
* Python floats are modelled as exact rationals (`ℚ`); the properties are
  stated in exact arithmetic, as the spec's "exactly, in exact arithmetic"
  reading.
* The NVML driver is an external collaborator; a tick's driver data is a
  `Snapshot` value (power reading, utilization, raw process list).  A raw
  process carries the result of `nvmlSystemGetProcessName` as
  `Option String` (`none` = the lookup raised) and the raw `usedGpuMemory`
  field as `Option Int` (`none` = the WDDM/Windows `None` case).
* Python truthiness in `x or 0`, `sum(...) or 1`, `if self.target_process`
  and `if total_energy_j` is modelled by explicit zero/empty tests.
-/

namespace GPUMon

/-- Module constant `SAMPLE_INTERVAL_MS = 10` (line 9). -/
def SAMPLE_INTERVAL_MS : ℚ := 10

/-- Line 18: `self.sample_interval = SAMPLE_INTERVAL_MS / 1000.0`. -/
def sample_interval : ℚ := SAMPLE_INTERVAL_MS / 1000

/-- One element of the list returned by
`nvmlDeviceGetGraphicsRunningProcesses + nvmlDeviceGetComputeRunningProcesses`,
together with the outcome of the per-pid name lookup.
`nameRes = none` models `nvmlSystemGetProcessName(pid)` raising;
`usedGpuMemory = none` models the driver returning `None` for the field. -/
structure ProcInfo where
  pid : Nat
  nameRes : Option String
  usedGpuMemory : Option Int
deriving DecidableEq, Repr

/-- The driver data consumed by one call of `GPUPowerMonitor.sample`:
`power_w = nvmlDeviceGetPowerUsage(handle)/1000.0` (line 50),
`util = nvmlDeviceGetUtilizationRates(handle).gpu` (line 51),
`procs` = the concatenated process lists (lines 53-56). -/
structure Snapshot where
  power_w : ℚ
  util : ℕ
  procs : List ProcInfo
deriving DecidableEq, Repr

/-- Python `p.usedGpuMemory or 0` (lines 59 and 74): `None` becomes `0`;
any integer is returned unchanged (`0 or 0 = 0`, and a nonzero integer —
negative included — is truthy, so it passes through unclamped). -/
def memVal (p : ProcInfo) : ℤ :=
  match p.usedGpuMemory with
  | none => 0
  | some v => v

/-- Line 60: `total_mem = sum(mem_values) or 1` — the sum of the raw
memory values over the whole process list; a zero sum becomes `1`. -/
def total_mem (snap : Snapshot) : ℤ :=
  if (snap.procs.map memVal).sum = 0 then 1 else (snap.procs.map memVal).sum

/-- Lines 66-69: `name = nvmlSystemGetProcessName(p.pid)` with the
`except` fallback `name = f"PID_{p.pid}"`. -/
def displayName (p : ProcInfo) : String :=
  match p.nameRes with
  | some n => n
  | none => "PID_" ++ toString p.pid

/-- Contiguous-sublist (substring) test on character lists, the meaning of
Python's `needle in hay` for strings. -/
def subChars (needle : List Char) : List Char → Bool
  | [] => needle.isEmpty
  | c :: t => needle.isPrefixOf (c :: t) || subChars needle t

/-- Python `s.lower()`, character by character, as a character list. -/
def lowerChars (s : String) : List Char := s.toList.map Char.toLower

/-- Python `needle.lower() in hay.lower()`: case-insensitive substring. -/
def containsCI (hay needle : String) : Bool :=
  subChars (lowerChars needle) (lowerChars hay)

/-- Line 71-72: `if self.target_process and self.target_process.lower()
not in name.lower(): continue`.  An unset (or empty, hence falsy) target
skips nothing. -/
def skipProc (target_process : Option String) (name : String) : Bool :=
  match target_process with
  | none => false
  | some t => if t = "" then false else !containsCI name t

/-- Lines 74-78 for one process: `used_mem = p.usedGpuMemory or 0`;
`mem_frac = used_mem / total_mem`; `proc_power = power_w * mem_frac`;
the amount added to the ledger is `proc_power * self.sample_interval`. -/
def procDelta (snap : Snapshot) (p : ProcInfo) : ℚ :=
  let used_mem : ℚ := (memVal p : ℚ)
  let mem_frac : ℚ := used_mem / (total_mem snap : ℚ)
  let proc_power : ℚ := snap.power_w * mem_frac
  proc_power * sample_interval

/-- The per-tick attribution output: the ordered list of
`(display name, energy delta)` additions the loop of lines 65-78 performs
(processes skipped by the target filter produce no addition). -/
def tickDeltas (target_process : Option String) (snap : Snapshot) :
    List (String × ℚ) :=
  (snap.procs.filter (fun p => !skipProc target_process (displayName p))).map
    (fun p => (displayName p, procDelta snap p))

/-- Line 78: `self.process_energy[name] += d` on a `defaultdict(float)` —
add to the first entry with that key, or append a fresh key (the missing
key reads as `0.0`). -/
def ledgerAdd : List (String × ℚ) → String → ℚ → List (String × ℚ)
  | [], name, d => [(name, d)]
  | (n, v) :: rest, name, d =>
      if n = name then (n, v + d) :: rest else (n, v) :: ledgerAdd rest name d

/-- Folding a tick's additions into the ledger, in loop order. -/
def applyDeltas (l : List (String × ℚ)) (ds : List (String × ℚ)) :
    List (String × ℚ) :=
  ds.foldl (fun acc nd => ledgerAdd acc nd.1 nd.2) l

/-- The monitor's mutable state: `self.samples` (each recorded sample kept
as its `(power_w, util)` payload; the wall-clock timestamp plays no role in
any computation) and `self.process_energy`. -/
structure MonitorState where
  samples : List (ℚ × ℕ)
  process_energy : List (String × ℚ)
deriving DecidableEq, Repr

/-- One call of `GPUPowerMonitor.sample` (lines 49-78) on driver data
`snap`: append the sample, then run the attribution loop. -/
def sampleStep (target_process : Option String) (st : MonitorState)
    (snap : Snapshot) : MonitorState :=
  { samples := st.samples ++ [(snap.power_w, snap.util)]
    process_energy := applyDeltas st.process_energy (tickDeltas target_process snap) }

/-- The sampling loop of `run` (lines 84-92): one `sample()` call per tick,
one tick per element of `snaps` (the sequence of driver snapshots the run
observes before it ends or is cancelled). -/
def runTicks (target_process : Option String) (st : MonitorState)
    (snaps : List Snapshot) : MonitorState :=
  snaps.foldl (sampleStep target_process) st

/-- Method `is_process_running` (lines 33-46): scan the current process list; a
process whose name lookup raises is skipped (`except: continue`); return
whether some resolvable name contains the target, case-insensitively. -/
def is_process_running (target_process : String) (procs : List ProcInfo) : Bool :=
  procs.any fun p =>
    match p.nameRes with
    | some name => containsCI name target_process
    | none => false

/-- Constructor `GPUPowerMonitor.__init__` (lines 13-31): fresh empty state, except
that a truthy (set and non-empty) target process with no match among the
currently running processes calls `sys.exit(1)` — modelled as `none`,
i.e. the run never starts. -/
def initMonitor (target_process : Option String) (procs : List ProcInfo) :
    Option MonitorState :=
  match target_process with
  | none => some ⟨[], []⟩
  | some t =>
      if t = "" then some ⟨[], []⟩
      else if is_process_running t procs then some ⟨[], []⟩ else none

/-- Lines 95-96: `total_energy_j = sum(p * self.sample_interval for _, p, _ in
self.samples)`. -/
def total_energy_j (samples : List (ℚ × ℕ)) : ℚ :=
  (samples.map (fun s => s.1 * sample_interval)).sum

/-- One line of the per-process report (lines 104-107). -/
structure ProcReport where
  name : String
  e_kwh : ℚ
  pct : ℚ
deriving DecidableEq, Repr

/-- The data printed by `report` (lines 94-107). -/
structure RunSummary where
  duration : ℚ
  total_energy_kwh : ℚ
  perProc : List ProcReport
deriving DecidableEq, Repr

/-- Function `report` (lines 94-107) as a pure function of the final state and the
measured duration.  The percent line is
`(e_j / total_energy_j * 100) if total_energy_j else 0`: a falsy (zero)
total yields `0`, never a division. -/
def report (st : MonitorState) (duration : ℚ) : RunSummary :=
  let tj := total_energy_j st.samples
  { duration := duration
    total_energy_kwh := tj / 3600000
    perProc := st.process_energy.map fun ne =>
      { name := ne.1
        e_kwh := ne.2 / 3600000
        pct := if tj = 0 then 0 else ne.2 / tj * 100 } }

/-- Sum of all values in a ledger. -/
def ledgerSum (l : List (String × ℚ)) : ℚ := (l.map Prod.snd).sum

/-- The ledger's key list (with multiplicity; keys stay unique when the
ledger is built by `ledgerAdd` from `[]`). -/
def ledgerKeys (l : List (String × ℚ)) : List String := l.map Prod.fst

/-- Total energy recorded in a ledger under one display name (a missing
key reads as `0`, as for a `defaultdict(float)`). -/
def lookupE : List (String × ℚ) → String → ℚ
  | [], _ => 0
  | (n, v) :: rest, name => (if n = name then v else 0) + lookupE rest name

/-- Sum of one tick's attribution deltas over all emitted entries. -/
def deltasSum (target_process : Option String) (snap : Snapshot) : ℚ :=
  ((tickDeltas target_process snap).map Prod.snd).sum

/-- One tick's total attribution delta for one display name. -/
def deltaForName (target_process : Option String) (snap : Snapshot)
    (name : String) : ℚ :=
  lookupE (tickDeltas target_process snap) name

/-- The spec's concrete scenario: 100 W, process A with 600 MB and process
B with 200 MB of GPU memory. -/
def snapConcrete : Snapshot :=
  ⟨100, 50, [⟨1, some "A", some 629145600⟩, ⟨2, some "B", some 209715200⟩]⟩

/-- A snapshot drawing power with no active processes. -/
def snapNoProcs : Snapshot := ⟨100, 0, []⟩

/-- A snapshot whose driver reports a negative memory value for one
process. -/
def snapNegMem : Snapshot :=
  ⟨100, 0, [⟨1, some "neg", some (-100)⟩, ⟨2, some "pos", some 300⟩]⟩

/-- Target-filter run over `snapNegMem`-like data: the kept process holds
300 memory units, the skipped one holds -100. -/
def snapKeepDrop : Snapshot :=
  ⟨100, 0, [⟨1, some "keep", some 300⟩, ⟨2, some "drop", some (-100)⟩]⟩

/-- A snapshot where every process reports zero or missing memory. -/
def snapZeroMem : Snapshot :=
  ⟨50, 10, [⟨1, some "z1", some 0⟩, ⟨2, some "z2", none⟩]⟩

/-- A snapshot with one failed name lookup next to a resolvable process. -/
def snapFallback : Snapshot :=
  ⟨80, 0, [⟨7, none, some 400⟩, ⟨8, some "other", some 400⟩]⟩

/-- Two resolvable processes used to exercise the name filter. -/
def snapTwoNames : Snapshot :=
  ⟨100, 0, [⟨1, some "Alpha", some 100⟩, ⟨2, some "Beta", some 300⟩]⟩

/-- A single-process snapshot whose name the filter `beta` misses. -/
def snapAlphaOnly : Snapshot := ⟨100, 0, [⟨1, some "alpha", some 100⟩]⟩

/-- A running-process list in which no resolvable name contains `game`. -/
def procsNoGame : List ProcInfo := [⟨1, some "editor", some 5⟩, ⟨2, none, some 3⟩]

/-- A monitor state with one recorded sample and one ledger entry. -/
def stOneSample : MonitorState := ⟨[(100, 3)], [("A", 1/2)]⟩

/-! ### Helper lemmas: the substring test and the skip predicate -/

theorem subChars_nil_left (hay : List Char) : subChars [] hay = true := by
  cases hay <;> simp [subChars, List.isPrefixOf]

theorem containsCI_empty_needle (s : String) : containsCI s "" = true := by
  unfold containsCI
  have h : lowerChars "" = ([] : List Char) := by decide
  rw [h]
  exact subChars_nil_left _

theorem skipProc_none (name : String) : skipProc none name = false := rfl

theorem not_skipProc_some (t name : String) :
    (!skipProc (some t) name) = containsCI name t := by
  by_cases h : t = ""
  · subst h
    simp [skipProc, containsCI_empty_needle]
  · simp [skipProc, h]

/-! ### Helper lemmas: ledger bookkeeping -/

theorem ledgerSum_ledgerAdd (l : List (String × ℚ)) (name : String) (d : ℚ) :
    ledgerSum (ledgerAdd l name d) = ledgerSum l + d := by
  induction l with
  | nil => simp [ledgerAdd, ledgerSum]
  | cons hd tl ih =>
      obtain ⟨n, v⟩ := hd
      by_cases h : n = name
      · simp only [ledgerAdd, if_pos h, ledgerSum, List.map_cons, List.sum_cons]
        ring
      · simp only [ledgerAdd, if_neg h, ledgerSum, List.map_cons, List.sum_cons] at ih ⊢
        rw [ih]
        ring

theorem ledgerSum_applyDeltas (ds : List (String × ℚ)) (l : List (String × ℚ)) :
    ledgerSum (applyDeltas l ds) = ledgerSum l + (ds.map Prod.snd).sum := by
  induction ds generalizing l with
  | nil => simp [applyDeltas, ledgerSum]
  | cons hd tl ih =>
      show ledgerSum (applyDeltas (ledgerAdd l hd.1 hd.2) tl) = _
      rw [ih, ledgerSum_ledgerAdd]
      simp only [List.map_cons, List.sum_cons]
      ring

theorem lookupE_ledgerAdd (l : List (String × ℚ)) (n name : String) (d : ℚ) :
    lookupE (ledgerAdd l n d) name = lookupE l name + if n = name then d else 0 := by
  induction l with
  | nil => simp [ledgerAdd, lookupE]
  | cons hd tl ih =>
      obtain ⟨k, v⟩ := hd
      by_cases hk : k = n
      · subst hk
        simp only [ledgerAdd, if_pos rfl, lookupE]
        by_cases h2 : k = name
        · simp [h2]
          ring
        · simp [h2]
      · simp only [ledgerAdd, if_neg hk, lookupE]
        rw [ih]
        ring

theorem lookupE_applyDeltas (ds : List (String × ℚ)) (l : List (String × ℚ))
    (name : String) :
    lookupE (applyDeltas l ds) name = lookupE l name + lookupE ds name := by
  induction ds generalizing l with
  | nil => simp [applyDeltas, lookupE]
  | cons hd tl ih =>
      obtain ⟨n, d⟩ := hd
      show lookupE (applyDeltas (ledgerAdd l n d) tl) name = _
      rw [ih, lookupE_ledgerAdd]
      simp only [lookupE]
      ring

theorem mem_ledgerKeys_ledgerAdd (l : List (String × ℚ)) (n : String) (d : ℚ)
    (name : String) :
    name ∈ ledgerKeys (ledgerAdd l n d) ↔ name ∈ ledgerKeys l ∨ name = n := by
  induction l with
  | nil => simp [ledgerAdd, ledgerKeys]
  | cons hd tl ih =>
      obtain ⟨k, v⟩ := hd
      by_cases hk : k = n
      · subst hk
        simp [ledgerAdd, ledgerKeys]
        tauto
      · simp only [ledgerAdd, if_neg hk, ledgerKeys, List.map_cons,
          List.mem_cons] at ih ⊢
        tauto

theorem mem_ledgerKeys_applyDeltas (ds : List (String × ℚ))
    (l : List (String × ℚ)) (name : String) :
    name ∈ ledgerKeys (applyDeltas l ds) ↔
      name ∈ ledgerKeys l ∨ name ∈ ds.map Prod.fst := by
  induction ds generalizing l with
  | nil => simp [applyDeltas]
  | cons hd tl ih =>
      show name ∈ ledgerKeys (applyDeltas (ledgerAdd l hd.1 hd.2) tl) ↔ _
      rw [ih, mem_ledgerKeys_ledgerAdd]
      simp only [List.map_cons, List.mem_cons]
      tauto

/-! ### Helper lemmas: one tick's attribution -/

theorem procDelta_eq (snap : Snapshot) (p : ProcInfo) :
    procDelta snap p
      = snap.power_w * sample_interval / (total_mem snap : ℚ) * (memVal p : ℚ) := by
  simp only [procDelta]
  ring

theorem tickDeltas_none (snap : Snapshot) :
    tickDeltas none snap
      = snap.procs.map (fun p => (displayName p, procDelta snap p)) := by
  unfold tickDeltas
  congr 1
  apply List.filter_eq_self.mpr
  intro p _
  rfl

theorem intCast_sum_memVal (l : List ProcInfo) :
    (((l.map memVal).sum : ℤ) : ℚ) = (l.map (fun p => ((memVal p : ℤ) : ℚ))).sum := by
  induction l with
  | nil => simp
  | cons a t ih => simp only [List.map_cons, List.sum_cons, Int.cast_add, ih]

theorem deltasSum_none_eq (snap : Snapshot) :
    deltasSum none snap
      = snap.power_w * sample_interval *
          ((((snap.procs.map memVal).sum : ℤ) : ℚ) / (total_mem snap : ℚ)) := by
  unfold deltasSum
  rw [tickDeltas_none, List.map_map]
  have h1 : (Prod.snd ∘ fun p => (displayName p, procDelta snap p))
      = procDelta snap := rfl
  rw [h1]
  have h2 : procDelta snap = fun p =>
      snap.power_w * sample_interval / (total_mem snap : ℚ) * ((memVal p : ℤ) : ℚ) := by
    funext p
    exact procDelta_eq snap p
  rw [h2, List.sum_map_mul_left, ← intCast_sum_memVal]
  ring

theorem memVal_sum_nonneg (snap : Snapshot)
    (h : ∀ p ∈ snap.procs, 0 ≤ memVal p) :
    0 ≤ (snap.procs.map memVal).sum := by
  apply List.sum_nonneg
  intro x hx
  obtain ⟨p, hp, rfl⟩ := List.mem_map.mp hx
  exact h p hp

theorem total_mem_pos (snap : Snapshot)
    (h : ∀ p ∈ snap.procs, 0 ≤ memVal p) :
    0 < total_mem snap := by
  unfold total_mem
  by_cases hs : (snap.procs.map memVal).sum = 0
  · simp [hs]
  · have := memVal_sum_nonneg snap h
    rw [if_neg hs]
    omega

theorem sample_interval_pos : (0 : ℚ) < sample_interval := by
  norm_num [sample_interval, SAMPLE_INTERVAL_MS]

theorem procDelta_nonneg (snap : Snapshot) (hp : 0 ≤ snap.power_w)
    (hall : ∀ q ∈ snap.procs, 0 ≤ memVal q) (p : ProcInfo) (hm : 0 ≤ memVal p) :
    0 ≤ procDelta snap p := by
  rw [procDelta_eq]
  have hT : (0 : ℚ) < (total_mem snap : ℚ) := by
    exact_mod_cast total_mem_pos snap hall
  have hm2 : (0 : ℚ) ≤ (memVal p : ℚ) := by exact_mod_cast hm
  exact mul_nonneg (div_nonneg (mul_nonneg hp sample_interval_pos.le) hT.le) hm2

theorem sum_map_filter_le {α : Type} (f : α → ℚ) (q : α → Bool) (l : List α)
    (h : ∀ x ∈ l, 0 ≤ f x) :
    ((l.filter q).map f).sum ≤ (l.map f).sum := by
  induction l with
  | nil => simp
  | cons a t ih =>
      have ha : 0 ≤ f a := h a (List.mem_cons_self a t)
      have ht : ∀ x ∈ t, 0 ≤ f x := fun x hx => h x (List.mem_cons_of_mem a hx)
      by_cases hq : q a
      · simp only [List.filter_cons, hq, if_pos, List.map_cons, List.sum_cons,
          if_true]
        exact add_le_add_left (ih ht) _
      · simp only [List.filter_cons, hq, List.map_cons, List.sum_cons, if_false,
          Bool.false_eq_true]
        calc ((t.filter q).map f).sum ≤ (t.map f).sum := ih ht
          _ ≤ f a + (t.map f).sum := le_add_of_nonneg_left ha

theorem deltasSum_le_power (t : Option String) (snap : Snapshot)
    (hp : 0 ≤ snap.power_w) (hall : ∀ p ∈ snap.procs, 0 ≤ memVal p) :
    deltasSum t snap ≤ snap.power_w * sample_interval := by
  have h1 : deltasSum t snap ≤ (snap.procs.map (procDelta snap)).sum := by
    unfold deltasSum tickDeltas
    rw [List.map_map]
    exact sum_map_filter_le _ _ _
      (fun p hp2 => procDelta_nonneg snap hp hall p (hall p hp2))
  have h2 : (snap.procs.map (procDelta snap)).sum = deltasSum none snap := by
    unfold deltasSum
    rw [tickDeltas_none, List.map_map]
    rfl
  have hfrac : (((snap.procs.map memVal).sum : ℤ) : ℚ) / (total_mem snap : ℚ) ≤ 1 := by
    by_cases hs : (snap.procs.map memVal).sum = 0
    · simp [hs]
    · unfold total_mem
      rw [if_neg hs, div_self (by exact_mod_cast hs)]
  have hpw : 0 ≤ snap.power_w * sample_interval :=
    mul_nonneg hp sample_interval_pos.le
  calc deltasSum t snap
      ≤ (snap.procs.map (procDelta snap)).sum := h1
    _ = deltasSum none snap := h2
    _ = snap.power_w * sample_interval *
          ((((snap.procs.map memVal).sum : ℤ) : ℚ) / (total_mem snap : ℚ)) :=
        deltasSum_none_eq snap
    _ ≤ snap.power_w * sample_interval * 1 :=
        mul_le_mul_of_nonneg_left hfrac hpw
    _ = snap.power_w * sample_interval := mul_one _

theorem deltasSum_none_conserves (snap : Snapshot) (hne : snap.procs ≠ [])
    (hpos : ∀ p ∈ snap.procs, 0 < memVal p) :
    deltasSum none snap = snap.power_w * sample_interval := by
  have hS : 0 < (snap.procs.map memVal).sum := by
    apply List.sum_pos
    · intro x hx
      obtain ⟨p, hp, rfl⟩ := List.mem_map.mp hx
      exact hpos p hp
    · simpa using hne
  have hs0 : (snap.procs.map memVal).sum ≠ 0 := hS.ne'
  rw [deltasSum_none_eq]
  unfold total_mem
  rw [if_neg hs0, div_self (by exact_mod_cast hs0), mul_one]

/-! ### Helper lemmas: the sampling loop -/

theorem sampleStep_ledgerSum (t : Option String) (st : MonitorState)
    (snap : Snapshot) :
    ledgerSum (sampleStep t st snap).process_energy
      = ledgerSum st.process_energy + deltasSum t snap := by
  unfold sampleStep deltasSum
  exact ledgerSum_applyDeltas _ _

theorem sampleStep_total_energy (t : Option String) (st : MonitorState)
    (snap : Snapshot) :
    total_energy_j (sampleStep t st snap).samples
      = total_energy_j st.samples + snap.power_w * sample_interval := by
  unfold sampleStep total_energy_j
  simp

theorem runTicks_diff_le (t : Option String) (snaps : List Snapshot) :
    ∀ st : MonitorState,
      (∀ snap ∈ snaps, 0 ≤ snap.power_w ∧ ∀ p ∈ snap.procs, 0 ≤ memVal p) →
      ledgerSum (runTicks t st snaps).process_energy
          - total_energy_j (runTicks t st snaps).samples
        ≤ ledgerSum st.process_energy - total_energy_j st.samples := by
  induction snaps with
  | nil =>
      intro st _
      simp [runTicks]
  | cons s rest ih =>
      intro st h
      have hs := h s (List.mem_cons_self s rest)
      have hrest : ∀ snap ∈ rest, 0 ≤ snap.power_w ∧ ∀ p ∈ snap.procs, 0 ≤ memVal p :=
        fun snap hm => h snap (List.mem_cons_of_mem s hm)
      have hstep : ledgerSum (sampleStep t st s).process_energy
          - total_energy_j (sampleStep t st s).samples
          ≤ ledgerSum st.process_energy - total_energy_j st.samples := by
        rw [sampleStep_ledgerSum, sampleStep_total_energy]
        have := deltasSum_le_power t s hs.1 hs.2
        linarith
      calc ledgerSum (runTicks t st (s :: rest)).process_energy
            - total_energy_j (runTicks t st (s :: rest)).samples
          ≤ ledgerSum (sampleStep t st s).process_energy
            - total_energy_j (sampleStep t st s).samples := ih (sampleStep t st s) hrest
        _ ≤ ledgerSum st.process_energy - total_energy_j st.samples := hstep

theorem runTicks_diff_eq (snaps : List Snapshot) :
    ∀ st : MonitorState,
      (∀ snap ∈ snaps, snap.procs ≠ [] ∧ ∀ p ∈ snap.procs, 0 < memVal p) →
      ledgerSum (runTicks none st snaps).process_energy
          - total_energy_j (runTicks none st snaps).samples
        = ledgerSum st.process_energy - total_energy_j st.samples := by
  induction snaps with
  | nil =>
      intro st _
      simp [runTicks]
  | cons s rest ih =>
      intro st h
      have hs := h s (List.mem_cons_self s rest)
      have hrest : ∀ snap ∈ rest, snap.procs ≠ [] ∧ ∀ p ∈ snap.procs, 0 < memVal p :=
        fun snap hm => h snap (List.mem_cons_of_mem s hm)
      have hstep : ledgerSum (sampleStep none st s).process_energy
          - total_energy_j (sampleStep none st s).samples
          = ledgerSum st.process_energy - total_energy_j st.samples := by
        rw [sampleStep_ledgerSum, sampleStep_total_energy,
          deltasSum_none_conserves s hs.1 hs.2]
        ring
      calc ledgerSum (runTicks none st (s :: rest)).process_energy
            - total_energy_j (runTicks none st (s :: rest)).samples
          = ledgerSum (sampleStep none st s).process_energy
            - total_energy_j (sampleStep none st s).samples := ih (sampleStep none st s) hrest
        _ = ledgerSum st.process_energy - total_energy_j st.samples := hstep

/-! ### Helper lemmas: the name filter -/

theorem tickDeltas_filter_eq (t : String) (snap : Snapshot) :
    tickDeltas (some t) snap
      = (tickDeltas none snap).filter (fun nd => containsCI nd.1 t) := by
  rw [tickDeltas_none]
  unfold tickDeltas
  rw [List.filter_map]
  congr 1
  apply List.filter_congr
  intro p _
  exact not_skipProc_some t (displayName p)

theorem lookupE_filter_key (L : List (String × ℚ)) (q : String → Bool)
    (name : String) :
    lookupE (L.filter (fun nd => q nd.1)) name
      = if q name then lookupE L name else 0 := by
  induction L with
  | nil => simp [lookupE]
  | cons hd tl ih =>
      obtain ⟨k, v⟩ := hd
      by_cases hq : q k
      · rw [show ((k, v) :: tl).filter (fun nd => q nd.1)
            = (k, v) :: tl.filter (fun nd => q nd.1) from by simp [List.filter_cons, hq]]
        by_cases hk : k = name
        · subst hk
          simp only [lookupE, if_pos rfl, ih, if_pos hq]
        · simp only [lookupE, if_neg hk, ih]
          simp
      · rw [show ((k, v) :: tl).filter (fun nd => q nd.1)
            = tl.filter (fun nd => q nd.1) from by simp [List.filter_cons, hq]]
        by_cases hk : k = name
        · subst hk
          rw [ih]
          simp [hq]
        · rw [ih]
          simp [lookupE, hk]

/-! ### The claims -/

/-- C1, counterexample: the conservation sentence quantifies over every
snapshot in which all processes have non-zero memory; a snapshot that
draws power while its process list is empty satisfies that hypothesis
vacuously, yet one attribution step distributes 0 J, not
`power_watts * interval_sec` = 1 J. -/
theorem conservation_fails_on_powered_idle_snapshot :
    (∀ p ∈ snapNoProcs.procs, memVal p ≠ 0)
    ∧ deltasSum none snapNoProcs ≠ snapNoProcs.power_w * sample_interval := by
  constructor
  · intro p hp
    simp [snapNoProcs] at hp
  · norm_num [deltasSum, tickDeltas, snapNoProcs, sample_interval,
      SAMPLE_INTERVAL_MS, List.filter]

/-- C1 (amended): for every snapshot with no name filter active, at least
one process, and every process having positive used memory, the sum of the
per-process energy deltas of one attribution step equals
`power_watts * interval_sec` exactly. -/
theorem attribution_conserves_power_on_positive_memory (snap : Snapshot)
    (hne : snap.procs ≠ []) (hpos : ∀ p ∈ snap.procs, 0 < memVal p) :
    deltasSum none snap = snap.power_w * sample_interval :=
  deltasSum_none_conserves snap hne hpos

/-- C1, witness: conservation holds at the spec's concrete two-process
snapshot. -/
theorem attribution_conserves_power_on_positive_memory_witness :
    deltasSum none snapConcrete = snapConcrete.power_w * sample_interval :=
  attribution_conserves_power_on_positive_memory snapConcrete
    (by decide) (by decide)

/-- C2: snapshot power 100 W, process A with 600 MB and process B with
200 MB, interval 0.01 s, no filter: one step attributes exactly 0.75 J to
A and 0.25 J to B, total 1.0 J = 100 × 0.01. -/
theorem concrete_scenario_exact_split :
    tickDeltas none snapConcrete = [("A", 3/4), ("B", 1/4)]
    ∧ (sampleStep none ⟨[], []⟩ snapConcrete).process_energy
        = [("A", 3/4), ("B", 1/4)]
    ∧ deltasSum none snapConcrete = 1
    ∧ snapConcrete.power_w * sample_interval = 1 := by
  refine ⟨?_, ?_, ?_, ?_⟩
  all_goals
    norm_num [tickDeltas, sampleStep, applyDeltas, ledgerAdd, deltasSum,
      snapConcrete, skipProc, displayName, procDelta, memVal, total_mem,
      sample_interval, SAMPLE_INTERVAL_MS, List.filter, List.map, List.foldl]
  all_goals decide

/-- C3, counterexample: `p.usedGpuMemory or 0` leaves a negative driver
value unchanged, so with processes reporting −100 and 300 the denominator
drops to 200 (below the sum 300 of the non-negative values) and the first
process is attributed −0.5 J — a negative energy delta, contradicting the
claim that negative values are clamped to 0. -/
theorem negative_memory_passes_through_unclamped :
    total_mem snapNegMem = 200
    ∧ procDelta snapNegMem ⟨1, some "neg", some (-100)⟩ = -(1/2)
    ∧ ("neg", -(1/2)) ∈ tickDeltas none snapNegMem := by
  refine ⟨by decide, ?_, ?_⟩
  · norm_num [procDelta, snapNegMem, memVal, total_mem, sample_interval,
      SAMPLE_INTERVAL_MS]
  · rw [show tickDeltas none snapNegMem = [("neg", -(1/2)), ("pos", 3/2)] from by
      norm_num [tickDeltas, snapNegMem, skipProc, displayName, procDelta, memVal,
        total_mem, sample_interval, SAMPLE_INTERVAL_MS, List.filter, List.map]]
    simp

/-- C3 (amended): a missing (`None`) — or zero — reported memory value is
treated as 0 before attribution: the process contributes 0 to the
total-memory sum and its own energy delta is 0.  Negative values are not
clamped (see the counterexample). -/
theorem missing_memory_clamped_to_zero (snap : Snapshot) (p : ProcInfo)
    (h : p.usedGpuMemory = none ∨ p.usedGpuMemory = some 0) :
    memVal p = 0 ∧ procDelta snap p = 0 := by
  have hm : memVal p = 0 := by
    rcases h with h | h <;> simp [memVal, h]
  refine ⟨hm, ?_⟩
  rw [procDelta_eq, hm]
  simp

/-- C3, witness: the zero-memory snapshot's second process has a missing
memory value and receives a zero delta. -/
theorem missing_memory_clamped_to_zero_witness :
    memVal ⟨2, some "z2", none⟩ = 0
    ∧ procDelta snapZeroMem ⟨2, some "z2", none⟩ = 0 :=
  missing_memory_clamped_to_zero snapZeroMem ⟨2, some "z2", none⟩ (Or.inl rfl)

/-- C4: when the summed used memory of a snapshot is 0, the denominator is
taken to be 1, every process's delta is the well-defined value
`power × interval × memVal`, and every zero-memory process receives 0. -/
theorem zero_total_memory_is_safe (snap : Snapshot)
    (h : (snap.procs.map memVal).sum = 0) :
    total_mem snap = 1
    ∧ (∀ p ∈ snap.procs, procDelta snap p
        = snap.power_w * sample_interval * (memVal p : ℚ))
    ∧ (∀ p ∈ snap.procs, memVal p = 0 → procDelta snap p = 0) := by
  have ht : total_mem snap = 1 := by simp [total_mem, h]
  refine ⟨ht, ?_, ?_⟩
  · intro p _
    rw [procDelta_eq, ht]
    push_cast
    ring
  · intro p _ hm
    rw [procDelta_eq, hm]
    simp

/-- C4, witness: the all-zero-memory snapshot gets denominator 1 and a
zero delta for its first process. -/
theorem zero_total_memory_is_safe_witness :
    total_mem snapZeroMem = 1
    ∧ procDelta snapZeroMem ⟨1, some "z1", some 0⟩ = 0 := by
  have h := zero_total_memory_is_safe snapZeroMem (by decide)
  exact ⟨h.1, h.2.2 ⟨1, some "z1", some 0⟩ (by decide) (by decide)⟩

/-- C5: a filtered tick's output is exactly the unfiltered output
restricted to the display names containing the filter case-insensitively:
included names keep their unfiltered delta unchanged (both runs divide by
the same `total_mem`, which is computed over all processes before the
filter is consulted), and every non-matching name is excluded, receiving
0 — so no process is ever assigned more than in the unfiltered run. -/
theorem filter_narrows_output_not_denominator (snap : Snapshot) (t : String) :
    tickDeltas (some t) snap
        = (tickDeltas none snap).filter (fun nd => containsCI nd.1 t)
    ∧ (∀ nd ∈ tickDeltas (some t) snap, containsCI nd.1 t = true)
    ∧ (∀ name, containsCI name t = true →
        deltaForName (some t) snap name = deltaForName none snap name)
    ∧ (∀ name, containsCI name t = false →
        deltaForName (some t) snap name = 0) := by
  have key := tickDeltas_filter_eq t snap
  refine ⟨key, ?_, ?_, ?_⟩
  · intro nd hnd
    rw [key] at hnd
    exact (List.mem_filter.mp hnd).2
  · intro name hname
    unfold deltaForName
    rw [key, lookupE_filter_key (tickDeltas none snap) (fun s => containsCI s t) name]
    simp [hname]
  · intro name hname
    unfold deltaForName
    rw [key, lookupE_filter_key (tickDeltas none snap) (fun s => containsCI s t) name]
    simp [hname]

/-- C5, witness: with filter `alp`, the matching name `Alpha` keeps its
unfiltered delta. -/
theorem filter_narrows_output_not_denominator_witness :
    deltaForName (some "alp") snapTwoNames "Alpha"
      = deltaForName none snapTwoNames "Alpha" :=
  (filter_narrows_output_not_denominator snapTwoNames "alp").2.2.1 "Alpha" (by decide)

/-- C6: a process whose name lookup raises is attributed under the
synthetic label `PID_<pid>` and, with no filter active, still receives its
normal memory-proportional delta in the tick's output (the failure aborts
nothing: `tickDeltas` is total and the other processes' entries are
unaffected by construction). -/
theorem failed_name_resolution_uses_pid_label (snap : Snapshot) (p : ProcInfo)
    (hmem : p ∈ snap.procs) (hname : p.nameRes = none) :
    displayName p = "PID_" ++ toString p.pid
    ∧ (displayName p, procDelta snap p) ∈ tickDeltas none snap := by
  refine ⟨by simp [displayName, hname], ?_⟩
  rw [tickDeltas_none]
  exact List.mem_map_of_mem _ hmem

/-- C6, witness: the fallback snapshot's unresolvable pid-7 process is
attributed under `PID_7`. -/
theorem failed_name_resolution_uses_pid_label_witness :
    displayName ⟨7, none, some 400⟩ = "PID_" ++ toString (7 : ℕ)
    ∧ (displayName ⟨7, none, some 400⟩,
        procDelta snapFallback ⟨7, none, some 400⟩)
          ∈ tickDeltas none snapFallback :=
  failed_name_resolution_uses_pid_label snapFallback ⟨7, none, some 400⟩
    (by decide) rfl

/-- C7, counterexample: Python truthiness makes the empty filter string
falsy, so `__init__` skips the startup validation entirely: with filter
`""` and no running process at all (hence, vacuously, no process whose
name contains the filter), the monitor still starts with empty state
instead of failing. -/
theorem empty_filter_string_skips_startup_validation :
    (∀ p ∈ ([] : List ProcInfo), ∀ n, p.nameRes = some n → containsCI n "" = false)
    ∧ initMonitor (some "") [] = some ⟨[], []⟩ := by
  constructor
  · intro p hp
    simp at hp
  · rfl

/-- C7 (amended): if a supplied filter string is non-empty and no
currently running process's resolvable name contains it case-insensitively,
`__init__` exits before the loop: no monitor state is created, so no
sample is recorded and no ledger entry exists.  (An empty filter string is
falsy in Python and is treated as no filter — see the counterexample.) -/
theorem unmatched_filter_aborts_startup (t : String) (procs : List ProcInfo)
    (ht : t ≠ "")
    (h : ∀ p ∈ procs, ∀ n, p.nameRes = some n → containsCI n t = false) :
    initMonitor (some t) procs = none := by
  have hrun : is_process_running t procs = false := by
    unfold is_process_running
    rw [List.any_eq_false]
    intro p hp
    cases hn : p.nameRes with
    | none => simp
    | some n => simp [h p hp n hn]
  unfold initMonitor
  simp [ht, hrun]

/-- C7, witness: with filter `game` and running processes `editor` plus
one unresolvable process, the run aborts at startup. -/
theorem unmatched_filter_aborts_startup_witness :
    initMonitor (some "game") procsNoGame = none := by
  apply unmatched_filter_aborts_startup "game" procsNoGame (by decide)
  intro p hp n hn
  simp only [procsNoGame, List.mem_cons, List.not_mem_nil, or_false] at hp
  rcases hp with rfl | rfl
  · obtain rfl : "editor" = n := by simpa using hn
    decide
  · simp at hn

/-- C8: summarization performs no undefined division: a zero sample-derived
total makes every reported percentage 0, a non-zero total reports
`energy / total × 100` for every ledger entry, and the zero-samples state
yields a well-defined summary with total energy 0 and no processes. -/
theorem report_percent_total_welldefined (st : MonitorState) (d : ℚ) :
    (total_energy_j st.samples = 0 →
      ∀ r ∈ (report st d).perProc, r.pct = 0)
    ∧ (total_energy_j st.samples ≠ 0 →
      ∀ ne ∈ st.process_energy,
        ({ name := ne.1, e_kwh := ne.2 / 3600000,
           pct := ne.2 / total_energy_j st.samples * 100 } : ProcReport)
          ∈ (report st d).perProc)
    ∧ (st.samples = [] → total_energy_j st.samples = 0
        ∧ (report st d).total_energy_kwh = 0)
    ∧ report ⟨[], []⟩ d = ⟨d, 0, []⟩ := by
  refine ⟨?_, ?_, ?_, ?_⟩
  · intro h0 r hr
    unfold report at hr
    simp only [List.mem_map] at hr
    obtain ⟨ne, hne, rfl⟩ := hr
    simp [h0]
  · intro hne ne hm
    unfold report
    simp only [List.mem_map]
    exact ⟨ne, hm, by simp [if_neg hne]⟩
  · intro hs
    constructor
    · simp [total_energy_j, hs]
    · simp [report, total_energy_j, hs]
  · simp [report, total_energy_j]

/-- C8, witness: a state with one 100 W sample and one ledger entry
reports the entry's percentage as `energy / total × 100`. -/
theorem report_percent_total_welldefined_witness :
    ({ name := ("A", (1/2 : ℚ)).1, e_kwh := ("A", (1/2 : ℚ)).2 / 3600000,
       pct := ("A", (1/2 : ℚ)).2 / total_energy_j stOneSample.samples * 100 }
        : ProcReport)
      ∈ (report stOneSample 0).perProc :=
  (report_percent_total_welldefined stOneSample 0).2.1
    (by norm_num [total_energy_j, stOneSample, sample_interval, SAMPLE_INTERVAL_MS])
    ("A", 1/2) (by simp [stOneSample])

/-- C9, counterexample: with filter `keep` and a skipped process holding a
negative raw memory value, one tick attributes 1.5 J to the kept process
while the sample-derived total is 1 J: the ledger sum exceeds the measured
total by 0.5 J in exact arithmetic, refuting the claimed invariant. -/
theorem filtered_negative_memory_breaks_energy_bound :
    total_energy_j (runTicks (some "keep") ⟨[], []⟩ [snapKeepDrop]).samples = 1
    ∧ ledgerSum (runTicks (some "keep") ⟨[], []⟩ [snapKeepDrop]).process_energy
        = 3/2 := by
  constructor <;>
    norm_num [runTicks, sampleStep, tickDeltas, snapKeepDrop, skipProc,
      displayName, procDelta, memVal, total_mem, sample_interval,
      SAMPLE_INTERVAL_MS, applyDeltas, ledgerAdd, ledgerSum, total_energy_j,
      containsCI, lowerChars, subChars, List.filter, List.map, List.foldl]

/-- C9 (amended): provided every power reading and every reported memory
value is non-negative (as the data model specifies), after every tick the
ledger total never exceeds the sample-derived total `Σ power × interval`;
and with no filter active and every snapshot non-empty with all-positive
memory, the two totals coincide exactly.  Quantifying over the whole tick
sequence covers every prefix of a run, i.e. every point during it. -/
theorem ledger_bounded_by_sampled_energy (t : Option String)
    (snaps : List Snapshot) :
    ((∀ snap ∈ snaps, 0 ≤ snap.power_w ∧ ∀ p ∈ snap.procs, 0 ≤ memVal p) →
      ledgerSum (runTicks t ⟨[], []⟩ snaps).process_energy
        ≤ total_energy_j (runTicks t ⟨[], []⟩ snaps).samples)
    ∧ ((∀ snap ∈ snaps, snap.procs ≠ [] ∧ ∀ p ∈ snap.procs, 0 < memVal p) →
      ledgerSum (runTicks none ⟨[], []⟩ snaps).process_energy
        = total_energy_j (runTicks none ⟨[], []⟩ snaps).samples) := by
  have hz1 : ledgerSum (⟨[], []⟩ : MonitorState).process_energy = 0 := rfl
  have hz2 : total_energy_j (⟨[], []⟩ : MonitorState).samples = 0 := rfl
  constructor
  · intro h
    have hd := runTicks_diff_le t snaps ⟨[], []⟩ h
    rw [hz1, hz2] at hd
    linarith
  · intro h
    have hd := runTicks_diff_eq snaps ⟨[], []⟩ h
    rw [hz1, hz2] at hd
    linarith

/-- C9, witness: a one-tick unfiltered run on the concrete snapshot has
ledger total equal to the sample-derived total. -/
theorem ledger_bounded_by_sampled_energy_witness :
    ledgerSum (runTicks none ⟨[], []⟩ [snapConcrete]).process_energy
      = total_energy_j (runTicks none ⟨[], []⟩ [snapConcrete]).samples :=
  (ledger_bounded_by_sampled_energy none [snapConcrete]).2 (by
    intro snap hs
    simp only [List.mem_singleton] at hs
    subst hs
    exact ⟨by decide, by decide⟩)

/-- C10, counterexample: a tick with a non-empty process list whose only
process is excluded by the name filter also leaves the ledger's key set
unchanged, contradicting "only an empty process list leaves the ledger's
key set unchanged that tick". -/
theorem nonempty_tick_can_leave_keys_unchanged :
    snapAlphaOnly.procs ≠ []
    ∧ ledgerKeys (sampleStep (some "beta") ⟨[], []⟩ snapAlphaOnly).process_energy
        = ledgerKeys (⟨[], []⟩ : MonitorState).process_energy := by
  constructor
  · decide
  · norm_num [sampleStep, tickDeltas, snapAlphaOnly, skipProc, displayName,
      containsCI, lowerChars, subChars, applyDeltas, ledgerKeys,
      List.filter, List.map, List.foldl]

/-- C10 (amended): every process observed in a tick and not excluded by
the filter has its display name as a ledger key after the tick (a
zero-memory process contributes a `0.0` delta), its ledger value grows by
exactly the tick's delta for that name, and the name appears in the
subsequent per-process report.  The key set is unchanged only when every
observed process is filtered out or already named in the ledger — in
particular when the process list is empty. -/
theorem observed_process_gains_ledger_key (target : Option String)
    (st : MonitorState) (snap : Snapshot) (p : ProcInfo) (d : ℚ)
    (hp : p ∈ snap.procs) (hskip : skipProc target (displayName p) = false) :
    displayName p ∈ ledgerKeys (sampleStep target st snap).process_energy
    ∧ (memVal p = 0 → procDelta snap p = 0)
    ∧ lookupE (sampleStep target st snap).process_energy (displayName p)
        = lookupE st.process_energy (displayName p)
          + deltaForName target snap (displayName p)
    ∧ ∃ r ∈ (report (sampleStep target st snap) d).perProc,
        r.name = displayName p := by
  have hmem : (displayName p, procDelta snap p) ∈ tickDeltas target snap := by
    unfold tickDeltas
    apply List.mem_map_of_mem
    rw [List.mem_filter]
    exact ⟨hp, by simp [hskip]⟩
  have hkey : displayName p
      ∈ ledgerKeys (sampleStep target st snap).process_energy := by
    show displayName p
      ∈ ledgerKeys (applyDeltas st.process_energy (tickDeltas target snap))
    rw [mem_ledgerKeys_applyDeltas]
    exact Or.inr (List.mem_map_of_mem Prod.fst hmem)
  refine ⟨hkey, ?_, ?_, ?_⟩
  · intro hm
    rw [procDelta_eq, hm]
    simp
  · show lookupE (applyDeltas st.process_energy (tickDeltas target snap)) _ = _
    exact lookupE_applyDeltas _ _ _
  · unfold ledgerKeys at hkey
    obtain ⟨ne, hne, hfst⟩ := List.mem_map.mp hkey
    simp only [report]
    exact ⟨_, List.mem_map_of_mem _ hne, hfst⟩

/-- C10, witness: the zero-memory process `z1`, observed with no filter
from the empty state, gains a ledger key, a zero delta, and a report
line. -/
theorem observed_process_gains_ledger_key_witness :
    displayName ⟨1, some "z1", some 0⟩
        ∈ ledgerKeys (sampleStep none ⟨[], []⟩ snapZeroMem).process_energy
    ∧ (memVal ⟨1, some "z1", some 0⟩ = 0 →
        procDelta snapZeroMem ⟨1, some "z1", some 0⟩ = 0)
    ∧ lookupE (sampleStep none ⟨[], []⟩ snapZeroMem).process_energy
          (displayName ⟨1, some "z1", some 0⟩)
        = lookupE (⟨[], []⟩ : MonitorState).process_energy
            (displayName ⟨1, some "z1", some 0⟩)
          + deltaForName none snapZeroMem (displayName ⟨1, some "z1", some 0⟩)
    ∧ ∃ r ∈ (report (sampleStep none ⟨[], []⟩ snapZeroMem) 0).perProc,
        r.name = displayName ⟨1, some "z1", some 0⟩ :=
  observed_process_gains_ledger_key none ⟨[], []⟩ snapZeroMem
    ⟨1, some "z1", some 0⟩ 0 (by decide) rfl

end GPUMon
